import Mathlib

/-!
Verification of the core of `max_profit_cli.py`: the dynamic-programming
optimizer `MaxProfitSolver.solve_dp_all_solutions`, the duplicated
evaluators `calculate_profit` and `validate_solution`, and their
relationship to the reference recurrence of the specification.

Machine integers of the source are Python arbitrary-precision ints; all
quantities manipulated by the core (profits, durations, counts, times)
are nonnegative throughout the relevant loops, so they are embedded as
`Nat`, with `Nat` truncated subtraction coinciding with the clamped
`max (h - t) 0` of the specification.  The one place a negative integer
matters — a negative horizon argument — is modelled separately on `Int`
by `solve_dp_int`.
-/

/-- The three building types of the hardcoded `BUILDINGS` catalog. -/
inductive Building where
  | theatre
  | pub
  | commercialPark
deriving DecidableEq, Repr

/-- Catalog field `BUILDINGS[b]['time']`: construction duration. -/
def Building.time : Building → Nat
  | .theatre => 5
  | .pub => 4
  | .commercialPark => 10

/-- Catalog field `BUILDINGS[b]['earning']`: earning per operational period. -/
def Building.earning : Building → Nat
  | .theatre => 1500
  | .pub => 1000
  | .commercialPark => 3000

/-- Iteration order of `BUILDINGS.items()`: dict insertion order, i.e. the
declaration order Theatre, Pub, Commercial Park. -/
def buildingList : List Building := [.theatre, .pub, .commercialPark]

/-- A combination dict `{'Theatre': _, 'Pub': _, 'Commercial Park': _}`:
one nonnegative count per known building type.  Structural (`dict`)
equality is the derived `DecidableEq`. -/
structure Combo where
  theatre : Nat
  pub : Nat
  commercialPark : Nat
deriving DecidableEq, Repr

/-- The all-zero combination `{'Theatre': 0, 'Pub': 0, 'Commercial Park': 0}`. -/
def Combo.zero : Combo := ⟨0, 0, 0⟩

/-- The dict read `solution[building]`. -/
def Combo.get (c : Combo) : Building → Nat
  | .theatre => c.theatre
  | .pub => c.pub
  | .commercialPark => c.commercialPark

/-- `new_solution = prev_solution.copy(); new_solution[building] += 1`. -/
def Combo.inc (c : Combo) : Building → Combo
  | .theatre => { c with theatre := c.theatre + 1 }
  | .pub => { c with pub := c.pub + 1 }
  | .commercialPark => { c with commercialPark := c.commercialPark + 1 }

/-- The initial dp cell `(0, [{'Theatre': 0, 'Pub': 0, 'Commercial Park': 0}])`. -/
def initRow : Nat × List Combo := (0, [Combo.zero])

/-- One iteration of the inner `for building, config in BUILDINGS.items()`
loop of `solve_dp_all_solutions`, at outer step `t` with horizon `h`.
`prevAt i` is the read `dp[i]` (always an already-written cell, since
`i = t - build_time < t`); `acc` is the running
`(max_profit, best_solutions)` pair.  The three branches are the
`new_profit > max_profit` replacement, the `new_profit == max_profit`
tie-merge with the `new_solution not in best_solutions` membership test
(performed against the list as it grows), and the no-op. -/
def tryBuilding (h t : Nat) (prevAt : Nat → Nat × List Combo)
    (acc : Nat × List Combo) (b : Building) : Nat × List Combo :=
  if b.time ≤ t then
    let operationalPeriods := h - t
    let totalEarning := b.earning * operationalPeriods
    let prev := prevAt (t - b.time)
    let newProfit := prev.1 + totalEarning
    if acc.1 < newProfit then
      (newProfit, prev.2.map (fun s => s.inc b))
    else if newProfit = acc.1 then
      (acc.1, prev.2.foldl
        (fun bs ps => if ps.inc b ∈ bs then bs else bs ++ [ps.inc b]) acc.2)
    else
      acc
  else
    acc

/-- The dp list after the outer loop `for t in range(1, time_units + 1)` has
run through step `t`: cells `dp[0] .. dp[t]`.  Each step seeds the
candidate best with `(dp[t-1][0], list(dp[t-1][1]))` (functionally the
previous cell) and folds the inner loop over the catalog. -/
def dpRows (h : Nat) : Nat → List (Nat × List Combo)
  | 0 => [initRow]
  | t + 1 =>
    let dp := dpRows h t
    let lookup := fun i => dp.getD i initRow
    let row := buildingList.foldl (tryBuilding h (t + 1) lookup) (lookup t)
    dp ++ [row]

/-- `MaxProfitSolver.solve_dp_all_solutions(time_units)` for a nonnegative
horizon: run the dp loop up to `time_units` and return `dp[time_units]`. -/
def solve_dp_all_solutions (time_units : Nat) : Nat × List Combo :=
  (dpRows time_units time_units).getD time_units initRow

/-- The dp cell `dp[t]` of the run with horizon `h` (proof-side view of
`dpRows`). -/
def dpAt (h t : Nat) : Nat × List Combo := (dpRows h t).getD t initRow

/-- Outcome of calling `solve_dp_all_solutions` with an arbitrary Python
int.  `indexError` is the untyped `IndexError` raised by `dp[time_units]`
when `time_units < 0` (the list `[...] * (time_units + 1)` is then empty).
`invalidHorizon` — Modelled from the spec: the specification postulates a
typed `InvalidHorizon` failure for negative horizons; no such check or
exception exists anywhere in the source. -/
inductive PyExc where
  | indexError
  | invalidHorizon
deriving DecidableEq, Repr

/-- `solve_dp_all_solutions` on an arbitrary `Int` horizon.  For
`time_units < 0` the dp list `[(0, [zeros])] * (time_units + 1)` is empty
(Python list repetition with a nonpositive count), the loop
`range(1, time_units + 1)` body never runs, and the final read
`dp[time_units]` (a negative index into an empty list) raises
`IndexError`; for `time_units ≥ 0` the call returns normally. -/
def solve_dp_int (time_units : Int) : Except PyExc (Nat × List Combo) :=
  if 0 ≤ time_units then
    Except.ok (solve_dp_all_solutions time_units.toNat)
  else
    Except.error PyExc.indexError

/-- Reference recurrence of the specification (claim C1):
`V h 0 = 0`, and for `t + 1 ≤ h`,
`V h (t+1) = max (V h t) (max over catalog b with time b ≤ t+1 of
V h (t + 1 - time b) + earning b * max (h - (t+1)) 0)`,
the clamped difference being `Nat` truncated subtraction. -/
def V (h : Nat) : Nat → Nat
  | 0 => 0
  | t + 1 =>
    let op := h - (t + 1)
    let cT := if Building.theatre.time ≤ t + 1 then
        V h (t + 1 - Building.theatre.time) + Building.theatre.earning * op
      else 0
    let cP := if Building.pub.time ≤ t + 1 then
        V h (t + 1 - Building.pub.time) + Building.pub.earning * op
      else 0
    let cC := if Building.commercialPark.time ≤ t + 1 then
        V h (t + 1 - Building.commercialPark.time) + Building.commercialPark.earning * op
      else 0
    max (V h t) (max cT (max cP cC))
termination_by t => t
decreasing_by
  all_goals simp [Building.time]
  all_goals omega

theorem Building.time_pos (b : Building) : 0 < b.time := by
  cases b <;> simp [Building.time]

theorem dpRows_length (h t : Nat) : (dpRows h t).length = t + 1 := by
  induction t with
  | zero => rfl
  | succ t ih => simp [dpRows, ih]

theorem dpRows_getD_of_le (h : Nat) :
    ∀ {t i : Nat}, i ≤ t → (dpRows h t).getD i initRow = dpAt h i := by
  intro t
  induction t with
  | zero =>
    intro i hi
    have : i = 0 := Nat.le_zero.mp hi
    subst this
    rfl
  | succ t ih =>
    intro i hi
    rcases Nat.lt_or_ge i (t + 1) with hlt | hge
    · have hi' : i ≤ t := Nat.lt_succ_iff.mp hlt
      show ((dpRows h t) ++ _).getD i initRow = dpAt h i
      rw [List.getD_append _ _ _ _ (by rw [dpRows_length]; omega)]
      exact ih hi'
    · have : i = t + 1 := by omega
      subst this
      rfl

theorem tryBuilding_congr (h t : Nat) (p q : Nat → Nat × List Combo)
    (hpq : ∀ i, i < t → p i = q i) (acc : Nat × List Combo) (b : Building) :
    tryBuilding h t p acc b = tryBuilding h t q acc b := by
  unfold tryBuilding
  by_cases hb : b.time ≤ t
  · have hlt : t - b.time < t := by have := b.time_pos; omega
    simp only [hpq _ hlt]
  · simp only [hb, if_false]

theorem dpAt_succ (h t : Nat) :
    dpAt h (t + 1) =
      buildingList.foldl (tryBuilding h (t + 1) (dpAt h)) (dpAt h t) := by
  have hlen := dpRows_length h t
  show (dpRows h (t + 1)).getD (t + 1) initRow = _
  simp only [dpRows]
  rw [List.getD_append_right _ _ _ _ (by omega)]
  rw [hlen, Nat.sub_self]
  show List.foldl _ _ _ = _
  rw [dpRows_getD_of_le h (Nat.le_refl t)]
  have hcongr : ∀ acc b,
      tryBuilding h (t + 1) (fun i => (dpRows h t).getD i initRow) acc b =
        tryBuilding h (t + 1) (dpAt h) acc b := by
    intro acc b
    apply tryBuilding_congr
    intro i hi
    exact dpRows_getD_of_le h (by omega)
  simp only [buildingList, List.foldl, hcongr]

theorem dpAt_zero (h : Nat) : dpAt h 0 = initRow := rfl

theorem solve_eq_dpAt (h : Nat) : solve_dp_all_solutions h = dpAt h h := rfl

theorem tryBuilding_fst (h t : Nat) (p : Nat → Nat × List Combo)
    (acc : Nat × List Combo) (b : Building) :
    (tryBuilding h t p acc b).1 =
      if b.time ≤ t then
        max acc.1 ((p (t - b.time)).1 + b.earning * (h - t))
      else acc.1 := by
  unfold tryBuilding
  by_cases hb : b.time ≤ t
  · simp only [hb, if_true]
    by_cases hgt : acc.1 < (p (t - b.time)).1 + b.earning * (h - t)
    · simp only [hgt, if_true]
      omega
    · simp only [hgt, if_false]
      by_cases heq : (p (t - b.time)).1 + b.earning * (h - t) = acc.1
      · simp only [heq, if_true]
        omega
      · simp only [heq, if_false]
        omega
  · simp only [hb, if_false]

theorem dpAt_fst_eq_V (h : Nat) : ∀ t, (dpAt h t).1 = V h t := by
  intro t
  induction t using Nat.strong_induction_on with
  | _ t ih =>
    cases t with
    | zero => simp [dpAt_zero, initRow, V]
    | succ t =>
      rw [dpAt_succ]
      simp only [buildingList, List.foldl]
      rw [tryBuilding_fst, tryBuilding_fst, tryBuilding_fst]
      simp only [Building.time, Building.earning]
      rw [V]
      simp only [Building.time, Building.earning]
      rw [ih t (by omega)]
      by_cases h5 : 5 ≤ t + 1
      · rw [ih (t + 1 - 5) (by omega)]
        by_cases h4 : 4 ≤ t + 1
        · rw [ih (t + 1 - 4) (by omega)]
          by_cases h10 : 10 ≤ t + 1
          · rw [ih (t + 1 - 10) (by omega)]
            simp only [h5, h4, h10, if_true]
            omega
          · simp only [h5, h4, h10, if_true, if_false]
            omega
        · omega
      · by_cases h4 : 4 ≤ t + 1
        · rw [ih (t + 1 - 4) (by omega)]
          simp only [h5, h4, if_true, if_false]
          have h10 : ¬ 10 ≤ t + 1 := by omega
          simp only [h10, if_false]
          omega
        · simp only [h5, h4, if_false]
          have h10 : ¬ 10 ≤ t + 1 := by omega
          simp only [h10, if_false]
          omega

theorem V_succ_ge (h t : Nat) : V h t ≤ V h (t + 1) := by
  rw [V]
  exact Nat.le_max_left _ _

theorem V_mono (h : Nat) {t t' : Nat} (htt : t ≤ t') : V h t ≤ V h t' := by
  induction t' with
  | zero => simp [Nat.le_zero.mp htt]
  | succ t' ih =>
    rcases Nat.lt_or_ge t (t' + 1) with hlt | hge
    · exact Nat.le_trans (ih (by omega)) (V_succ_ge h t')
    · have : t = t' + 1 := by omega
      simp [this]

theorem V_step (h : Nat) {t : Nat} (b : Building) (hb : b.time ≤ t) :
    V h (t - b.time) + b.earning * (h - t) ≤ V h t := by
  have hpos : 0 < t := Nat.lt_of_lt_of_le b.time_pos hb
  obtain ⟨t', rfl⟩ : ∃ t', t = t' + 1 := ⟨t - 1, by omega⟩
  rw [V]
  cases b with
  | theatre =>
    simp only [Building.time, Building.earning] at hb ⊢
    simp only [hb, if_true]
    omega
  | pub =>
    simp only [Building.time, Building.earning] at hb ⊢
    simp only [hb, if_true]
    omega
  | commercialPark =>
    simp only [Building.time, Building.earning] at hb ⊢
    simp only [hb, if_true]
    omega

/-- Evaluator-style simulation: consecutive construction starting at
`current_time = ct`, each building finishing at `ct + time` and earning
`earning * max (h - finish) 0` (the `Nat` difference).  This is the
profit computation shared, up to the harmless `if operational_periods > 0`
guard, by `calculate_profit`, `validate_solution`, and the spec's notion
of "evaluate-style simulation under an ordering". -/
def schedFrom (h : Nat) : Nat → List Building → Nat
  | _, [] => 0
  | ct, b :: rest => b.earning * (h - (ct + b.time)) + schedFrom h (ct + b.time) rest

/-- Simulation of a construction ordering from time 0. -/
def schedProfit (h : Nat) (s : List Building) : Nat := schedFrom h 0 s

/-- Total construction time of an ordering. -/
def totalDur : List Building → Nat
  | [] => 0
  | b :: rest => b.time + totalDur rest

/-- The per-type counts of an ordering (which combination it realizes). -/
def countsOf : List Building → Combo
  | [] => Combo.zero
  | b :: rest => (countsOf rest).inc b

/-- Total construction time of a combination:
`sum over types of count * duration` in catalog order. -/
def sumTime (c : Combo) : Nat :=
  c.theatre * Building.theatre.time + c.pub * Building.pub.time +
    c.commercialPark * Building.commercialPark.time

theorem totalDur_append (s s' : List Building) :
    totalDur (s ++ s') = totalDur s + totalDur s' := by
  induction s with
  | nil => simp [totalDur]
  | cons b rest ih => simp [totalDur, ih]; omega

theorem schedFrom_append (h : Nat) (s s' : List Building) :
    ∀ ct, schedFrom h ct (s ++ s') =
      schedFrom h ct s + schedFrom h (ct + totalDur s) s' := by
  induction s with
  | nil => intro ct; simp [schedFrom, totalDur]
  | cons b rest ih =>
    intro ct
    show b.earning * (h - (ct + b.time)) + schedFrom h (ct + b.time) (rest ++ s') =
      b.earning * (h - (ct + b.time)) + schedFrom h (ct + b.time) rest +
        schedFrom h (ct + (b.time + totalDur rest)) s'
    rw [ih (ct + b.time)]
    have harg : ct + b.time + totalDur rest = ct + (b.time + totalDur rest) := by omega
    rw [harg]
    omega

theorem Combo.inc_comm (c : Combo) (a b : Building) :
    (c.inc a).inc b = (c.inc b).inc a := by
  cases a <;> cases b <;> simp [Combo.inc]

theorem countsOf_append_single (s : List Building) (b : Building) :
    countsOf (s ++ [b]) = (countsOf s).inc b := by
  induction s with
  | nil => rfl
  | cons a rest ih =>
    show (countsOf (rest ++ [b])).inc a = ((countsOf rest).inc a).inc b
    rw [ih]
    exact Combo.inc_comm (countsOf rest) b a

theorem sumTime_countsOf (s : List Building) : sumTime (countsOf s) = totalDur s := by
  induction s with
  | nil => simp [countsOf, Combo.zero, sumTime, totalDur]
  | cons b rest ih =>
    cases b <;>
      simp [countsOf, Combo.inc, sumTime, totalDur, Building.time] at ih ⊢ <;>
      omega

/-- Any consecutive schedule is credited at most the recurrence value at
its own total duration: the recurrence dominates every realizable
ordering. -/
theorem schedProfit_le_V (h : Nat) (s : List Building) :
    schedProfit h s ≤ V h (totalDur s) := by
  induction s using List.reverseRecOn with
  | nil => simp [schedProfit, schedFrom, totalDur, V]
  | append_singleton s b ih =>
    have hdur : totalDur (s ++ [b]) = totalDur s + b.time := by
      rw [totalDur_append]; simp [totalDur]
    have hsched : schedProfit h (s ++ [b]) =
        schedProfit h s + b.earning * (h - (totalDur s + b.time)) := by
      unfold schedProfit
      rw [schedFrom_append]
      simp [schedFrom]
    rw [hsched, hdur]
    have hstep := V_step h (t := totalDur s + b.time) b (by omega)
    have : totalDur s + b.time - b.time = totalDur s := by omega
    rw [this] at hstep
    omega

theorem schedProfit_append_single (h : Nat) (s : List Building) (b : Building) :
    schedProfit h (s ++ [b]) =
      schedProfit h s + b.earning * (h - (totalDur s + b.time)) := by
  unfold schedProfit
  rw [schedFrom_append]
  simp [schedFrom]

theorem Combo.inc_injective (b : Building) :
    Function.Injective (fun c : Combo => c.inc b) := by
  intro c1 c2 hc
  cases c1
  cases c2
  cases b <;> simp [Combo.inc, Combo.mk.injEq] at hc ⊢ <;> omega

theorem tryBuilding_eq_of_skip (h t : Nat) (p : Nat → Nat × List Combo)
    (acc : Nat × List Combo) (b : Building) (hb : ¬ b.time ≤ t) :
    tryBuilding h t p acc b = acc := by
  unfold tryBuilding
  simp [hb]

theorem tryBuilding_eq_of_gt (h t : Nat) (p : Nat → Nat × List Combo)
    (acc : Nat × List Combo) (b : Building) (hb : b.time ≤ t)
    (hgt : acc.1 < (p (t - b.time)).1 + b.earning * (h - t)) :
    tryBuilding h t p acc b =
      ((p (t - b.time)).1 + b.earning * (h - t),
        (p (t - b.time)).2.map (fun s => s.inc b)) := by
  unfold tryBuilding
  simp [hb, hgt]

theorem tryBuilding_eq_of_tie (h t : Nat) (p : Nat → Nat × List Combo)
    (acc : Nat × List Combo) (b : Building) (hb : b.time ≤ t)
    (heq : (p (t - b.time)).1 + b.earning * (h - t) = acc.1) :
    tryBuilding h t p acc b =
      (acc.1, (p (t - b.time)).2.foldl
        (fun bs ps => if ps.inc b ∈ bs then bs else bs ++ [ps.inc b]) acc.2) := by
  unfold tryBuilding
  have hnlt : ¬ acc.1 < (p (t - b.time)).1 + b.earning * (h - t) := by omega
  simp [hb, hnlt, heq]

theorem tryBuilding_eq_of_lt (h t : Nat) (p : Nat → Nat × List Combo)
    (acc : Nat × List Combo) (b : Building) (hb : b.time ≤ t)
    (hlt : (p (t - b.time)).1 + b.earning * (h - t) < acc.1) :
    tryBuilding h t p acc b = acc := by
  unfold tryBuilding
  have hnlt : ¬ acc.1 < (p (t - b.time)).1 + b.earning * (h - t) := by omega
  have hne : ¬ (p (t - b.time)).1 + b.earning * (h - t) = acc.1 := by omega
  simp [hb, hnlt, hne]

theorem mergeFold_ne_nil (b : Building) :
    ∀ (l gs : List Combo), gs ≠ [] →
      l.foldl (fun bs ps => if ps.inc b ∈ bs then bs else bs ++ [ps.inc b]) gs ≠ [] := by
  intro l
  induction l with
  | nil => intro gs hgs; exact hgs
  | cons p rest ih =>
    intro gs hgs
    simp only [List.foldl]
    by_cases hmem : p.inc b ∈ gs
    · rw [if_pos hmem]
      exact ih gs hgs
    · rw [if_neg hmem]
      exact ih _ (by simp)

theorem mergeFold_nodup (b : Building) :
    ∀ (l gs : List Combo), gs.Nodup →
      (l.foldl (fun bs ps => if ps.inc b ∈ bs then bs else bs ++ [ps.inc b]) gs).Nodup := by
  intro l
  induction l with
  | nil => intro gs hgs; exact hgs
  | cons p rest ih =>
    intro gs hgs
    simp only [List.foldl]
    by_cases hmem : p.inc b ∈ gs
    · rw [if_pos hmem]
      exact ih gs hgs
    · rw [if_neg hmem]
      refine ih _ ?_
      simp [List.nodup_append, hgs, hmem]

theorem mergeFold_mem (b : Building) :
    ∀ (l gs : List Combo) (c : Combo),
      c ∈ l.foldl (fun bs ps => if ps.inc b ∈ bs then bs else bs ++ [ps.inc b]) gs →
      c ∈ gs ∨ ∃ p ∈ l, p.inc b = c := by
  intro l
  induction l with
  | nil => intro gs c hc; exact Or.inl hc
  | cons p rest ih =>
    intro gs c hc
    simp only [List.foldl] at hc
    by_cases hmem : p.inc b ∈ gs
    · rw [if_pos hmem] at hc
      rcases ih gs c hc with h1 | ⟨q, hq, hqc⟩
      · exact Or.inl h1
      · exact Or.inr ⟨q, List.mem_cons_of_mem _ hq, hqc⟩
    · rw [if_neg hmem] at hc
      rcases ih _ c hc with h1 | ⟨q, hq, hqc⟩
      · rcases List.mem_append.mp h1 with h2 | h2
        · exact Or.inl h2
        · refine Or.inr ⟨p, List.mem_cons_self _ _, ?_⟩
          have : c = p.inc b := by simpa using h2
          exact this.symm
      · exact Or.inr ⟨q, List.mem_cons_of_mem _ hq, hqc⟩

/-- Soundness of a finished dp cell: its solution list is non-empty,
duplicate-free, and every combination in it is realized by some
construction ordering of total duration at most `t` whose evaluator-style
simulation earns exactly the cell's profit. -/
def RowSound (h t : Nat) : Prop :=
  (dpAt h t).2 ≠ [] ∧ (dpAt h t).2.Nodup ∧
    ∀ c ∈ (dpAt h t).2, ∃ s : List Building,
      countsOf s = c ∧ totalDur s ≤ t ∧ schedProfit h s = (dpAt h t).1

/-- Soundness of the running `(max_profit, best_solutions)` accumulator in
the middle of step `t`'s inner loop: the profit never exceeds the
recurrence value of the step, the list is non-empty and duplicate-free,
and every stored combination has a realizing ordering whose simulated
profit lies between the accumulator profit and the recurrence value. -/
def StepSound (h t : Nat) (acc : Nat × List Combo) : Prop :=
  acc.1 ≤ V h t ∧ acc.2 ≠ [] ∧ acc.2.Nodup ∧
    ∀ c ∈ acc.2, ∃ s : List Building,
      countsOf s = c ∧ totalDur s ≤ t ∧
        acc.1 ≤ schedProfit h s ∧ schedProfit h s ≤ V h t

theorem tryBuilding_sound (h t : Nat) (b : Building)
    (hrows : ∀ i, i < t → RowSound h i)
    (acc : Nat × List Combo) (hacc : StepSound h t acc) :
    StepSound h t (tryBuilding h t (dpAt h) acc b) := by
  by_cases hb : b.time ≤ t
  case neg => rw [tryBuilding_eq_of_skip h t (dpAt h) acc b hb]; exact hacc
  have hlt : t - b.time < t := by have := b.time_pos; omega
  obtain ⟨hne, hnd, hmem⟩ := hrows _ hlt
  have hVprev := dpAt_fst_eq_V h (t - b.time)
  have hstepV : V h (t - b.time) + b.earning * (h - t) ≤ V h t := V_step h b hb
  -- profit and realizing orderings of every incremented previous solution
  have hinc : ∀ p ∈ (dpAt h (t - b.time)).2, ∃ s : List Building,
      countsOf s = p.inc b ∧ totalDur s ≤ t ∧
        schedProfit h s ≥ (dpAt h (t - b.time)).1 + b.earning * (h - t) ∧
        schedProfit h s ≤ V h t := by
    intro p hp
    obtain ⟨s, hscnt, hsdur, hsprofit⟩ := hmem p hp
    refine ⟨s ++ [b], ?_, ?_, ?_, ?_⟩
    · rw [countsOf_append_single, hscnt]
    · rw [totalDur_append]
      simp only [totalDur]
      omega
    · rw [schedProfit_append_single, hsprofit]
      have hsub : h - t ≤ h - (totalDur s + b.time) :=
        Nat.sub_le_sub_left (by omega) h
      have := Nat.mul_le_mul_left b.earning hsub
      omega
    · calc schedProfit h (s ++ [b]) ≤ V h (totalDur (s ++ [b])) := schedProfit_le_V h _
        _ ≤ V h t := by
            apply V_mono
            rw [totalDur_append]
            simp only [totalDur]
            omega
  rcases Nat.lt_trichotomy acc.1 ((dpAt h (t - b.time)).1 + b.earning * (h - t))
    with hcmp | hcmp | hcmp
  · -- new_profit > max_profit: replace the best entirely
    rw [tryBuilding_eq_of_gt h t (dpAt h) acc b hb hcmp]
    refine ⟨by simp; omega, by simpa using hne, ?_, ?_⟩
    · exact List.Nodup.map (Combo.inc_injective b) hnd
    · intro c hc
      obtain ⟨p, hp, hpc⟩ := List.mem_map.mp hc
      obtain ⟨s, h1, h2, h3, h4⟩ := hinc p hp
      exact ⟨s, by rw [h1, hpc], h2, by simpa using h3, h4⟩
  · -- new_profit == max_profit: merge, skipping structural duplicates
    rw [tryBuilding_eq_of_tie h t (dpAt h) acc b hb hcmp.symm]
    obtain ⟨haccV, haccne, haccnd, haccmem⟩ := hacc
    refine ⟨haccV, mergeFold_ne_nil b _ _ haccne, mergeFold_nodup b _ _ haccnd, ?_⟩
    intro c hc
    rcases mergeFold_mem b _ _ c hc with hold | ⟨p, hp, hpc⟩
    · exact haccmem c hold
    · obtain ⟨s, h1, h2, h3, h4⟩ := hinc p hp
      exact ⟨s, by rw [h1, hpc], h2, by omega, h4⟩
  · -- new_profit < max_profit: no change
    rw [tryBuilding_eq_of_lt h t (dpAt h) acc b hb hcmp]
    exact hacc

theorem dpAt_rowSound (h : Nat) : ∀ t, RowSound h t := by
  intro t
  induction t using Nat.strong_induction_on with
  | _ t ih =>
    cases t with
    | zero =>
      refine ⟨by simp [dpAt_zero, initRow], by simp [dpAt_zero, initRow], ?_⟩
      intro c hc
      have : c = Combo.zero := by simpa [dpAt_zero, initRow] using hc
      subst this
      exact ⟨[], rfl, by simp [totalDur], by simp [dpAt_zero, initRow, schedProfit, schedFrom]⟩
    | succ t =>
      obtain ⟨hne, hnd, hmem⟩ := ih t (by omega)
      have hVt := dpAt_fst_eq_V h t
      have hseed : StepSound h (t + 1) (dpAt h t) := by
        refine ⟨by rw [hVt]; exact V_succ_ge h t, hne, hnd, ?_⟩
        intro c hc
        obtain ⟨s, h1, h2, h3⟩ := hmem c hc
        exact ⟨s, h1, by omega, by omega, by rw [h3, hVt]; exact V_succ_ge h t⟩
      have hstep : ∀ acc b, StepSound h (t + 1) acc →
          StepSound h (t + 1) (tryBuilding h (t + 1) (dpAt h) acc b) := by
        intro acc b ha
        exact tryBuilding_sound h (t + 1) b (fun i hi => ih i (by omega)) acc ha
      have hfold : StepSound h (t + 1) (dpAt h (t + 1)) := by
        rw [dpAt_succ]
        simp only [buildingList, List.foldl]
        exact hstep _ _ (hstep _ _ (hstep _ _ hseed))
      obtain ⟨hV1, hne1, hnd1, hmem1⟩ := hfold
      have hVfix := dpAt_fst_eq_V h (t + 1)
      refine ⟨hne1, hnd1, ?_⟩
      intro c hc
      obtain ⟨s, h1, h2, h3, h4⟩ := hmem1 c hc
      exact ⟨s, h1, h2, by omega⟩

/-- The inner `for _ in range(count)` loop shared verbatim by
`calculate_profit` and `validate_solution`: build `count` instances of a
building back to back, threading `(total_profit, current_time)`.  Profit
is credited only `if operational_periods > 0`, exactly as in the source. -/
def simBuilding (time_units build_time earning_per_period : Nat) :
    Nat → Nat × Nat → Nat × Nat
  | 0, st => st
  | count + 1, (total_profit, current_time) =>
    let construction_end_time := current_time + build_time
    let operational_periods := time_units - construction_end_time
    let new_profit :=
      if 0 < operational_periods then
        total_profit + earning_per_period * operational_periods
      else total_profit
    simBuilding time_units build_time earning_per_period count
      (new_profit, construction_end_time)

/-- `solution.items()`: the dict's key/value pairs in insertion order. -/
def comboItems (c : Combo) : List (Building × Nat) :=
  [(.theatre, c.theatre), (.pub, c.pub), (.commercialPark, c.commercialPark)]

/-- `MaxProfitSolver.calculate_profit(time_units, solution)`. -/
def calculate_profit (time_units : Nat) (solution : Combo) : Nat :=
  ((comboItems solution).foldl
    (fun st it =>
      if 0 < it.2 then simBuilding time_units it.1.time it.1.earning it.2 st else st)
    (0, 0)).1

/-- `MaxProfitSolver.validate_solution(time_units, solution)`, returning
`(is_valid, total_profit, total_time_used)`.  The source's third component
is the message string
`f"Time used: {total_time_used}/{time_units}, Profit: ..."`; its payload
`total_time_used` is returned here in its place. -/
def validate_solution (time_units : Nat) (solution : Combo) : Bool × Nat × Nat :=
  let st := (comboItems solution).foldl
    (fun st it =>
      if 0 < it.2 then simBuilding time_units it.1.time it.1.earning it.2 st else st)
    (0, 0)
  (decide (st.2 ≤ time_units), st.1, st.2)

/-- One iteration of the outer `for building, count in solution.items()`
loop with the combination dict kept as explicit mutable state: the loop
body only reads `solution[building]` and never stores into the dict, so
the state component passes through. -/
def evalStepSt (time_units : Nat) (st : (Nat × Nat) × Combo) (b : Building) :
    (Nat × Nat) × Combo :=
  let count := st.2.get b
  if 0 < count then
    (simBuilding time_units b.time b.earning count st.1, st.2)
  else st

/-- `calculate_profit` with the combination dict threaded as state,
returning the profit together with the dict as it stands after the call. -/
def calculate_profit_state (time_units : Nat) (solution : Combo) : Nat × Combo :=
  let r := buildingList.foldl (evalStepSt time_units) ((0, 0), solution)
  (r.1.1, r.2)

/-- `validate_solution` with the combination dict threaded as state. -/
def validate_solution_state (time_units : Nat) (solution : Combo) :
    (Bool × Nat × Nat) × Combo :=
  let r := buildingList.foldl (evalStepSt time_units) ((0, 0), solution)
  ((decide (r.1.2 ≤ time_units), r.1.1, r.1.2), r.2)

/-- The fixed construction ordering the evaluator imposes: catalog
declaration order, all instances of one type consecutive. -/
def canonOrder (c : Combo) : List Building :=
  List.replicate c.theatre .theatre ++ List.replicate c.pub .pub ++
    List.replicate c.commercialPark .commercialPark

/-- Flatten an items list into the ordering it denotes. -/
def itemsOrder : List (Building × Nat) → List Building
  | [] => []
  | it :: rest => List.replicate it.2 it.1 ++ itemsOrder rest

theorem totalDur_replicate (n : Nat) (b : Building) :
    totalDur (List.replicate n b) = n * b.time := by
  induction n with
  | zero => simp [List.replicate, totalDur]
  | succ n ih =>
    simp only [List.replicate_succ, totalDur, ih, Nat.succ_mul]
    omega

theorem simBuilding_eq (tu : Nat) (b : Building) :
    ∀ (k tp ct : Nat), simBuilding tu b.time b.earning k (tp, ct) =
      (tp + schedFrom tu ct (List.replicate k b), ct + k * b.time) := by
  intro k
  induction k with
  | zero => intro tp ct; simp [simBuilding, List.replicate, schedFrom]
  | succ k ih =>
    intro tp ct
    show simBuilding tu b.time b.earning k
        (if 0 < tu - (ct + b.time) then tp + b.earning * (tu - (ct + b.time)) else tp,
          ct + b.time) = _
    have hprofit :
        (if 0 < tu - (ct + b.time) then tp + b.earning * (tu - (ct + b.time)) else tp) =
          tp + b.earning * (tu - (ct + b.time)) := by
      by_cases hop : 0 < tu - (ct + b.time)
      · rw [if_pos hop]
      · rw [if_neg hop]
        have : tu - (ct + b.time) = 0 := by omega
        rw [this]
        simp
    rw [hprofit, ih]
    simp only [List.replicate_succ, schedFrom, Prod.mk.injEq, Nat.succ_mul]
    constructor
    · omega
    · omega

theorem evalStep_eq (tu : Nat) (st : Nat × Nat) (b : Building) (k : Nat) :
    (if 0 < k then simBuilding tu b.time b.earning k st else st) =
      (st.1 + schedFrom tu st.2 (List.replicate k b), st.2 + k * b.time) := by
  by_cases hk : 0 < k
  · rw [if_pos hk]
    obtain ⟨tp, ct⟩ := st
    exact simBuilding_eq tu b k tp ct
  · rw [if_neg hk]
    have : k = 0 := by omega
    subst this
    simp [List.replicate, schedFrom]

theorem evalFold_eq (tu : Nat) :
    ∀ (items : List (Building × Nat)) (st : Nat × Nat),
      items.foldl
          (fun st it =>
            if 0 < it.2 then simBuilding tu it.1.time it.1.earning it.2 st else st)
          st =
        (st.1 + schedFrom tu st.2 (itemsOrder items),
          st.2 + totalDur (itemsOrder items)) := by
  intro items
  induction items with
  | nil => intro st; simp [itemsOrder, schedFrom, totalDur]
  | cons it rest ih =>
    intro st
    simp only [List.foldl]
    rw [evalStep_eq, ih]
    simp only [itemsOrder, Prod.mk.injEq]
    rw [schedFrom_append, totalDur_append, totalDur_replicate]
    constructor
    · omega
    · omega

theorem itemsOrder_comboItems (c : Combo) : itemsOrder (comboItems c) = canonOrder c := by
  simp [comboItems, itemsOrder, canonOrder]

theorem totalDur_canonOrder (c : Combo) : totalDur (canonOrder c) = sumTime c := by
  unfold canonOrder sumTime
  rw [totalDur_append, totalDur_append, totalDur_replicate, totalDur_replicate,
    totalDur_replicate]

theorem validate_solution_spec (tu : Nat) (c : Combo) :
    validate_solution tu c =
      (decide (sumTime c ≤ tu), schedProfit tu (canonOrder c), sumTime c) := by
  unfold validate_solution
  rw [evalFold_eq, itemsOrder_comboItems, totalDur_canonOrder]
  simp [schedProfit]

theorem calculate_profit_spec (tu : Nat) (c : Combo) :
    calculate_profit tu c = schedProfit tu (canonOrder c) := by
  unfold calculate_profit
  rw [evalFold_eq, itemsOrder_comboItems]
  simp [schedProfit]

theorem evalStepSt_eq (tu : Nat) (st : (Nat × Nat) × Combo) (b : Building) :
    evalStepSt tu st b =
      ((if 0 < st.2.get b then
          simBuilding tu b.time b.earning (st.2.get b) st.1
        else st.1), st.2) := by
  unfold evalStepSt
  by_cases hc : 0 < st.2.get b
  · simp [hc]
  · simp [hc]

theorem evalStepSt_snd (tu : Nat) (st : (Nat × Nat) × Combo) (b : Building) :
    (evalStepSt tu st b).2 = st.2 := by
  rw [evalStepSt_eq]

theorem calculate_profit_state_fst (tu : Nat) (c : Combo) :
    (calculate_profit_state tu c).1 = calculate_profit tu c := by
  unfold calculate_profit_state calculate_profit
  simp only [buildingList, comboItems, List.foldl, evalStepSt_eq, Combo.get]

theorem schedFrom_mono_h {h h' : Nat} (hh : h ≤ h') (s : List Building) :
    ∀ ct, schedFrom h ct s ≤ schedFrom h' ct s := by
  induction s with
  | nil => intro ct; simp [schedFrom]
  | cons b rest ih =>
    intro ct
    simp only [schedFrom]
    have h1 : h - (ct + b.time) ≤ h' - (ct + b.time) := by omega
    have h2 := Nat.mul_le_mul_left b.earning h1
    have h3 := ih (ct + b.time)
    omega

/-- C1: for every horizon `h ≥ 0`, `solve_dp_all_solutions h` returns as
its max profit the value `V h h` of the reference recurrence
(`V h 0 = 0`; `V h t` maximizes over doing nothing and over finishing any
catalog building of duration at most `t` at time `t`, credited
`earning * max (h - t) 0`). -/
theorem c1_max_profit_eq_recurrence (h : Nat) :
    (solve_dp_all_solutions h).1 = V h h := by
  rw [solve_eq_dpAt]
  exact dpAt_fst_eq_V h h

/-- C2: for every horizon `h ≥ 0`, the solution list returned by
`solve_dp_all_solutions` is non-empty and contains no two structurally
equal combinations. -/
theorem c2_solutions_nonempty_nodup (h : Nat) :
    (solve_dp_all_solutions h).2 ≠ [] ∧ (solve_dp_all_solutions h).2.Nodup := by
  obtain ⟨h1, h2, _⟩ := dpAt_rowSound h h
  rw [solve_eq_dpAt]
  exact ⟨h1, h2⟩

/-- C3: every combination in the solution set of `solve_dp_all_solutions h`
is realized by some ordering of its building instances whose
evaluator-style simulation (consecutive construction from time 0, each
instance earning `earning * max (h - finish) 0`) yields exactly the
returned max profit. -/
theorem c3_exists_ordering_achieving_max (h : Nat) (c : Combo)
    (hc : c ∈ (solve_dp_all_solutions h).2) :
    ∃ s : List Building, countsOf s = c ∧
      schedProfit h s = (solve_dp_all_solutions h).1 := by
  obtain ⟨_, _, hmem⟩ := dpAt_rowSound h h
  rw [solve_eq_dpAt] at hc ⊢
  obtain ⟨s, h1, _, h3⟩ := hmem c hc
  exact ⟨s, h1, h3⟩

theorem c3_witness :
    (⟨2, 0, 0⟩ : Combo) ∈ (solve_dp_all_solutions 12).2 ∧
      ∃ s : List Building, countsOf s = ⟨2, 0, 0⟩ ∧
        schedProfit 12 s = (solve_dp_all_solutions 12).1 :=
  ⟨by decide, c3_exists_ordering_achieving_max 12 ⟨2, 0, 0⟩ (by decide)⟩

/-- C4: the maximum attainable profit is monotonically non-decreasing in
the horizon. -/
theorem c4_max_profit_monotone (h : Nat) (hh : 1 ≤ h) :
    (solve_dp_all_solutions (h - 1)).1 ≤ (solve_dp_all_solutions h).1 := by
  obtain ⟨hne, _, hmem⟩ := dpAt_rowSound (h - 1) (h - 1)
  obtain ⟨c, hc⟩ := List.exists_mem_of_ne_nil _ hne
  obtain ⟨s, _, hdur, hprof⟩ := hmem c hc
  rw [solve_eq_dpAt, solve_eq_dpAt]
  calc (dpAt (h - 1) (h - 1)).1 = schedProfit (h - 1) s := hprof.symm
    _ ≤ schedProfit h s := schedFrom_mono_h (by omega) s 0
    _ ≤ V h (totalDur s) := schedProfit_le_V h s
    _ ≤ V h h := V_mono h (by omega)
    _ = (dpAt h h).1 := (dpAt_fst_eq_V h h).symm

theorem c4_witness :
    1 ≤ 5 ∧ (solve_dp_all_solutions 4).1 ≤ (solve_dp_all_solutions 5).1 :=
  ⟨by decide, c4_max_profit_monotone 5 (by decide)⟩

/-- C5 counterexample: at the concrete negative horizon `-1` the call does
not produce the typed `InvalidHorizon` rejection the claim asserts; it
raises the untyped `IndexError` of the out-of-range read `dp[time_units]`
on the empty dp list. -/
theorem c5_counterexample :
    solve_dp_int (-1) = Except.error PyExc.indexError ∧
      (Except.error PyExc.indexError : Except PyExc (Nat × List Combo)) ≠
        Except.error PyExc.invalidHorizon := by
  constructor
  · rfl
  · intro hcon
    exact absurd (Except.error.inj hcon) (by decide)

/-- C5 amended: for every negative horizon the call raises the untyped
`IndexError` (no value, clamped or partial, is returned, but no typed
`InvalidHorizon` check exists and the failure happens at the final
`dp[time_units]` read, after the empty dp list is built). -/
theorem c5_negative_horizon_raises_index_error (z : Int) (hz : z < 0) :
    solve_dp_int z = Except.error PyExc.indexError := by
  unfold solve_dp_int
  rw [if_neg (by omega)]

theorem c5_witness :
    (-2 : Int) < 0 ∧ solve_dp_int (-2) = Except.error PyExc.indexError :=
  ⟨by decide, c5_negative_horizon_raises_index_error (-2) (by decide)⟩

/-- C6: `validate_solution` returns `time_used` equal to the catalog-order
sum of `count * duration`, `is_valid` true exactly when that time fits in
the horizon, and the canonical-order simulated profit. -/
theorem c6_validate_solution_characterization (tu : Nat) (c : Combo) :
    (validate_solution tu c).2.2 = sumTime c ∧
      ((validate_solution tu c).1 = true ↔ sumTime c ≤ tu) ∧
      (validate_solution tu c).2.1 = schedProfit tu (canonOrder c) := by
  rw [validate_solution_spec]
  refine ⟨rfl, ?_, rfl⟩
  simp

/-- C7: the fixed canonical-order evaluation of any combination the
optimizer returns never exceeds the returned max profit. -/
theorem c7_fixed_order_profit_le_max (h : Nat) (c : Combo)
    (hc : c ∈ (solve_dp_all_solutions h).2) :
    (validate_solution h c).2.1 ≤ (solve_dp_all_solutions h).1 := by
  obtain ⟨_, _, hmem⟩ := dpAt_rowSound h h
  rw [solve_eq_dpAt] at hc ⊢
  obtain ⟨s, hcnt, hdur, _⟩ := hmem c hc
  have hprofit : (validate_solution h c).2.1 = schedProfit h (canonOrder c) := by
    rw [validate_solution_spec]
  rw [hprofit, dpAt_fst_eq_V]
  calc schedProfit h (canonOrder c)
      ≤ V h (totalDur (canonOrder c)) := schedProfit_le_V h _
    _ ≤ V h h := by
        apply V_mono
        rw [totalDur_canonOrder, ← hcnt, sumTime_countsOf]
        omega

theorem c7_witness :
    (⟨1, 0, 0⟩ : Combo) ∈ (solve_dp_all_solutions 8).2 ∧
      (validate_solution 8 ⟨1, 0, 0⟩).2.1 ≤ (solve_dp_all_solutions 8).1 :=
  ⟨by decide, c7_fixed_order_profit_le_max 8 ⟨1, 0, 0⟩ (by decide)⟩

/-- C8: the duplicated simulation loops of `calculate_profit` and
`validate_solution` compute extensionally equal profits. -/
theorem c8_calculate_profit_eq_validate_profit (tu : Nat) (c : Combo) :
    calculate_profit tu c = (validate_solution tu c).2.1 := by
  rw [calculate_profit_spec, validate_solution_spec]

/-- C9: neither evaluator mutates its combination argument: with the dict
threaded as explicit state through the loops, it comes back unchanged. -/
theorem c9_evaluators_do_not_mutate (tu : Nat) (c : Combo) :
    (validate_solution_state tu c).2 = c ∧
      (calculate_profit_state tu c).2 = c := by
  unfold validate_solution_state calculate_profit_state
  simp [buildingList, List.foldl, evalStepSt_snd]

/-- C10: every combination the optimizer returns fits in the horizon:
its total construction time is at most `h`, equivalently
`validate_solution` reports it valid. -/
theorem c10_solutions_within_horizon (h : Nat) (c : Combo)
    (hc : c ∈ (solve_dp_all_solutions h).2) :
    sumTime c ≤ h ∧ (validate_solution h c).1 = true := by
  obtain ⟨_, _, hmem⟩ := dpAt_rowSound h h
  rw [solve_eq_dpAt] at hc
  obtain ⟨s, hcnt, hdur, _⟩ := hmem c hc
  have hsum : sumTime c ≤ h := by
    rw [← hcnt, sumTime_countsOf]
    omega
  refine ⟨hsum, ?_⟩
  rw [validate_solution_spec]
  simpa using hsum

theorem c10_witness :
    (⟨1, 1, 0⟩ : Combo) ∈ (solve_dp_all_solutions 10).2 ∧
      sumTime (⟨1, 1, 0⟩ : Combo) ≤ 10 ∧ (validate_solution 10 ⟨1, 1, 0⟩).1 = true :=
  ⟨by decide, c10_solutions_within_horizon 10 ⟨1, 1, 0⟩ (by decide)⟩
